import Mathlib

/-!
Verification of the Sudoku engine in `script.js`.

Grids are embedded as `List (List Nat)` (the JS arrays of arrays), JS `Set`s
of digits as insertion-ordered duplicate-free `List Nat`, and the mutable
`gameState` object as an explicit `GameState` record threaded through the
transition functions.  `Math.random()` is modelled by explicit streams of
numbers supplied to the shuffling code.
-/

namespace Sudoku

/-- Grid type: a 9x9 grid of numbers, embedded as a list of rows (a JS array of arrays). -/
abbrev Grid := List (List Nat)

/-- Cell read: `grid[r][c]`; out-of-range reads default to 0. -/
def getCell (g : Grid) (r c : Nat) : Nat := (g.getD r []).getD c 0

/-- Cell write: `grid[r][c] = v` (functionally). -/
def setCell (g : Grid) (r c v : Nat) : Grid := g.set r ((g.getD r []).set c v)

/-- JS `Array(9).fill(null).map(() => Array(9).fill(0))` — the all-zero 9x9 grid. -/
def emptyGrid : Grid := List.replicate 9 (List.replicate 9 0)

/-- JS `findEmptyCell`: first cell equal to 0 in row-major order, if any. -/
def findEmptyCell (g : Grid) : Option (Nat × Nat) :=
  ((List.range 81).map (fun i => (i / 9, i % 9))).find?
    (fun rc => getCell g rc.1 rc.2 == 0)

/-- JS `isValidPlacement(grid, row, col, num)`: `num` occurs nowhere in the row,
the column, or the 3x3 box with origin `(row/3*3, col/3*3)`. -/
def isValidPlacement (g : Grid) (row col num : Nat) : Bool :=
  ((List.range 9).all fun c => getCell g row c != num) &&
  ((List.range 9).all fun r => getCell g r col != num) &&
  (let boxRow := row / 3 * 3
   let boxCol := col / 3 * 3
   (List.range 3).all fun dr =>
     (List.range 3).all fun dc => getCell g (boxRow + dr) (boxCol + dc) != num)

/-- Fisher-Yates swap step: exchange positions `i` and `j` of the list. -/
def swapList (l : List Nat) (i j : Nat) : List Nat :=
  (l.set i (l.getD j 0)).set j (l.getD i 0)

/-- The Fisher-Yates loop of `shuffleArray`: positions `i+1, i, ..., 1`, each
swapped with a position chosen by the next entry of the random stream
(`j = rand % (pos+1)`, matching `Math.floor(Math.random()*(pos+1))`). -/
def shuffleAux : List Nat → List Nat → Nat → List Nat
  | l, _, 0 => l
  | l, rands, i + 1 => shuffleAux (swapList l (i + 1) (rands.headD 0 % (i + 2))) rands.tail i

/-- JS `shuffleArray(array)`: copy the list and run Fisher-Yates from the last
index down to 1, with random choices taken from the stream `rands`. -/
def shuffleArray (l : List Nat) (rands : List Nat) : List Nat :=
  match l.length with
  | 0 => l
  | n + 1 => shuffleAux l rands n

/-- The `for (const num of numbers)` loop body of `fillGrid`: try each
candidate in order, placing it when valid and recursing via `recur`. -/
def tryNums (recur : Grid → Option Grid) (g : Grid) (row col : Nat) :
    List Nat → Option Grid
  | [] => none
  | n :: rest =>
    if isValidPlacement g row col n then
      match recur (setCell g row col n) with
      | some g2 => some g2
      | none => tryNums recur g row col rest
    else tryNums recur g row col rest

/-- JS `fillGrid`: randomized backtracking fill.  `rand g` supplies the
Fisher-Yates random choices used to shuffle `[1..9]` at the search node whose
current grid is `g` (each node of one JS run has a distinct grid, so every run
is an instance of some `rand`).  `fuel` bounds the recursion depth; `none`
models returning `false`. -/
def fillGrid (rand : Grid → List Nat) : Nat → Grid → Option Grid
  | 0, _ => none
  | fuel + 1, g =>
    match findEmptyCell g with
    | none => some g
    | some rc =>
      tryNums (fillGrid rand fuel) g rc.1 rc.2
        (shuffleArray [1, 2, 3, 4, 5, 6, 7, 8, 9] (rand g))

/-- JS `generateSolution()`: run the backtracking fill on the all-zero grid. -/
def generateSolution (rand : Grid → List Nat) (fuel : Nat) : Option Grid :=
  fillGrid rand fuel emptyGrid

/-- The three difficulty keys of `DIFFICULTY_LEVELS`. -/
inductive Difficulty
  | low
  | medium
  | high
deriving DecidableEq

/-- An entry of the `DIFFICULTY_LEVELS` object. -/
structure DifficultyLevel where
  cellsToRemove : Nat
  name : String
deriving DecidableEq

/-- The `DIFFICULTY_LEVELS` constant: removal counts 30/45/55. -/
def DIFFICULTY_LEVELS : Difficulty → DifficultyLevel
  | .low => { cellsToRemove := 30, name := "Low" }
  | .medium => { cellsToRemove := 45, name := "Medium" }
  | .high => { cellsToRemove := 55, name := "High" }

/-- The removal loop of `generatePuzzle`: zero the cell of each listed linear
position in turn, stopping (`break`) once `removed >= cellsToRemove`. -/
def removeLoop (puzzle : Grid) (cellsToRemove : Nat) :
    List Nat → Nat → Grid
  | [], _ => puzzle
  | pos :: rest, removed =>
    if cellsToRemove ≤ removed then puzzle
    else removeLoop (setCell puzzle (pos / 9) (pos % 9) 0) cellsToRemove rest (removed + 1)

/-- JS `generatePuzzle(solution, difficulty)`: copy the solution, shuffle the 81
linear cell positions (randomness from `rands`), and zero out the first
`cellsToRemove` of them. -/
def generatePuzzle (solution : Grid) (difficulty : Difficulty) (rands : List Nat) : Grid :=
  let puzzle := solution
  let cellsToRemove := (DIFFICULTY_LEVELS difficulty).cellsToRemove
  let positions := shuffleArray (List.range 81) rands
  removeLoop puzzle cellsToRemove positions 0

/-! ## JS `Set` model

A JS `Set` of digits is embedded as its insertion-ordered, duplicate-free
element list; `Array.from` is then the identity and `new Set(arr)` is a
first-occurrence de-duplication. -/

/-- JS `set.add(n)` (JS sets ignore duplicates). -/
def setAdd (s : List Nat) (n : Nat) : List Nat :=
  if s.contains n then s else s ++ [n]

/-- JS `new Set(arr)`: collect elements in order of first occurrence. -/
def setFromList (arr : List Nat) : List Nat :=
  arr.foldl (fun acc x => if acc.contains x then acc else acc ++ [x]) []

/-- The status messages written to `statusElement.textContent`. -/
inductive StatusMsg
  | completed
  | someIncorrect
  | allCorrect
deriving DecidableEq

/-- The session-relevant fields of the mutable `gameState` object. -/
structure GameState where
  puzzle : Grid
  solution : Grid
  userValues : Grid
  possibleNumbers : List (List Nat)
  selectedCell : Option Nat
  difficulty : Difficulty
  elapsedTime : Nat
  isCompleted : Bool
  showErrors : Bool
deriving DecidableEq

/-- JS `checkBoardState()`: scan all 81 cells and report
`(allFilled, allCorrect, hasErrors)`. -/
def checkBoardState (s : GameState) : Bool × Bool × Bool :=
  (((List.range 81).all fun i =>
      getCell s.userValues (i / 9) (i % 9) != 0),
   ((List.range 81).all fun i =>
      getCell s.userValues (i / 9) (i % 9) == getCell s.solution (i / 9) (i % 9)),
   ((List.range 81).any fun i =>
      (getCell s.userValues (i / 9) (i % 9) != getCell s.solution (i / 9) (i % 9)) &&
      (getCell s.userValues (i / 9) (i % 9) != 0)))

/-- JS `checkCompletion()`: if every cell is filled, turn on `showErrors`, and
when moreover everything matches the solution mark the session completed.
The second component is the status message written, if any. -/
def checkCompletion (s : GameState) : GameState × Option StatusMsg :=
  let r := checkBoardState s
  if r.1 then
    let s1 := { s with showErrors := true }
    if r.2.1 then ({ s1 with isCompleted := true }, some StatusMsg.completed)
    else (s1, some StatusMsg.someIncorrect)
  else (s, none)

/-- JS `setFinalValue(index, num)`: write the value, clear the cell's candidate
set, then run the completion check. -/
def setFinalValue (s : GameState) (index num : Nat) : GameState × Option StatusMsg :=
  let row := index / 9
  let col := index % 9
  checkCompletion
    { s with
      userValues := setCell s.userValues row col num,
      possibleNumbers := s.possibleNumbers.set index [] }

/-- JS `togglePossibleNumber(index, num)`: clear any final value at the cell,
then flip membership of `num` in the cell's candidate set. -/
def togglePossibleNumber (s : GameState) (index num : Nat) : GameState :=
  let row := index / 9
  let col := index % 9
  let s1 :=
    if getCell s.userValues row col ≠ 0 then
      { s with userValues := setCell s.userValues row col 0 }
    else s
  let pn := s1.possibleNumbers.getD index []
  let pn' := if pn.contains num then pn.erase num else setAdd pn num
  { s1 with possibleNumbers := s1.possibleNumbers.set index pn' }

/-- JS `clearCell(index)`: only when the underlying puzzle cell is 0, zero the
user value and clear the candidate set. -/
def clearCell (s : GameState) (index : Nat) : GameState :=
  let row := index / 9
  let col := index % 9
  if getCell s.puzzle row col = 0 then
    { s with
      userValues := setCell s.userValues row col 0,
      possibleNumbers := s.possibleNumbers.set index [] }
  else s

/-- The candidate computation shared by `findFinalNumber` and
`autoFillPossibleNumbers`: start from `{1..9}` and delete every value in the
cell's row, column, and 3x3 box of `g`. -/
def deleteUnitValues (g : Grid) (row col : Nat) : List Nat :=
  let afterRow :=
    (List.range 9).foldl (fun acc c => acc.erase (getCell g row c))
      [1, 2, 3, 4, 5, 6, 7, 8, 9]
  let afterCol :=
    (List.range 9).foldl (fun acc r => acc.erase (getCell g r col)) afterRow
  let boxRow := row / 3 * 3
  let boxCol := col / 3 * 3
  (List.range 3).foldl
    (fun acc dr =>
      (List.range 3).foldl
        (fun acc2 dc => acc2.erase (getCell g (boxRow + dr) (boxCol + dc))) acc)
    afterCol

/-- JS `findFinalNumber(row, col)`: the unique remaining candidate of the cell
over `userValues`, or `null` when the candidate set is not a singleton. -/
def findFinalNumber (s : GameState) (row col : Nat) : Option Nat :=
  match deleteUnitValues s.userValues row col with
  | [n] => some n
  | _ => none

/-- JS `autoFillPossibleNumbers(index)`: on a non-initial, unset cell, overwrite
the cell's candidate set with the recomputed candidates. -/
def autoFillPossibleNumbers (s : GameState) (index : Nat) : GameState :=
  let row := index / 9
  let col := index % 9
  if getCell s.puzzle row col ≠ 0 ∨ getCell s.userValues row col ≠ 0 then s
  else
    { s with
      possibleNumbers := s.possibleNumbers.set index (deleteUnitValues s.userValues row col) }

/-- JS `countEmptyCellsInRow(row)`. -/
def countEmptyCellsInRow (s : GameState) (row : Nat) : Nat :=
  (List.range 9).countP (fun col => getCell s.userValues row col == 0)

/-- JS `countEmptyCellsInColumn(col)`. -/
def countEmptyCellsInColumn (s : GameState) (col : Nat) : Nat :=
  (List.range 9).countP (fun row => getCell s.userValues row col == 0)

/-- JS `countEmptyCellsInSquare(row, col)`. -/
def countEmptyCellsInSquare (s : GameState) (row col : Nat) : Nat :=
  let boxRow := row / 3 * 3
  let boxCol := col / 3 * 3
  ((List.range 3).map (fun dr =>
      (List.range 3).countP (fun dc => getCell s.userValues (boxRow + dr) (boxCol + dc) == 0))).sum

/-- JS `handleCellDoubleClick(index)`: on a non-initial, unset cell, if it is the
last empty cell of one of its units and has a unique remaining candidate, set
that value; otherwise auto-fill the candidate set. -/
def handleCellDoubleClick (s : GameState) (index : Nat) : GameState × Option StatusMsg :=
  let row := index / 9
  let col := index % 9
  if getCell s.puzzle row col ≠ 0 ∨ getCell s.userValues row col ≠ 0 then (s, none)
  else
    let isLastInRow := countEmptyCellsInRow s row == 1
    let isLastInCol := countEmptyCellsInColumn s col == 1
    let isLastInSquare := countEmptyCellsInSquare s row col == 1
    if isLastInRow || isLastInCol || isLastInSquare then
      match findFinalNumber s row col with
      | some n => setFinalValue s index n
      | none => (autoFillPossibleNumbers s index, none)
    else (autoFillPossibleNumbers s index, none)

/-- The keyboard keys distinguished by `handleKeyDown`. -/
inductive Key
  | digit (n : Nat)
  | arrowUp
  | arrowDown
  | arrowLeft
  | arrowRight
  | delete
  | backspace
  | other
deriving DecidableEq

/-- The `lastKeyPress` record (last digit key and its timestamp). -/
structure KeyPress where
  key : Option Nat
  time : Nat
deriving DecidableEq

/-- JS `handleKeyDown(e)`: arrow-key navigation, guarded digit entry
(double-press or shift = final value, single press = toggle candidate), and
Delete/Backspace clearing.  Returns the new state, the new `lastKeyPress`,
and the status message, if any. -/
def handleKeyDown (s : GameState) (last : KeyPress) (k : Key) (shift : Bool)
    (now : Nat) : GameState × KeyPress × Option StatusMsg :=
  match s.selectedCell with
  | none => (s, last, none)
  | some index =>
    if s.isCompleted then (s, last, none)
    else
      let row := index / 9
      let col := index % 9
      let isInitialCell := getCell s.puzzle row col ≠ 0
      let newSelectedCell : Option Nat :=
        match k with
        | .arrowUp => if row > 0 then some (index - 9) else none
        | .arrowDown => if row < 8 then some (index + 9) else none
        | .arrowLeft => if col > 0 then some (index - 1) else none
        | .arrowRight => if col < 8 then some (index + 1) else none
        | _ => none
      match newSelectedCell with
      | some ns => ({ s with selectedCell := some ns }, last, none)
      | none =>
        if isInitialCell then (s, last, none)
        else
          match k with
          | .digit num =>
            if 1 ≤ num ∧ num ≤ 9 then
              if shift || (last.key = some num ∧ now - last.time < 300) then
                let r := setFinalValue s index num
                (r.1, ⟨some num, now⟩, r.2)
              else (togglePossibleNumber s index num, ⟨some num, now⟩, none)
            else (s, last, none)
          | .delete => (clearCell s index, last, none)
          | .backspace => (clearCell s index, last, none)
          | _ => (s, last, none)

/-- JS `validateBoard()`: turn on `showErrors` and report whether any filled cell
differs from the solution. -/
def validateBoard (s : GameState) : GameState × StatusMsg :=
  let s1 := { s with showErrors := true }
  let r := checkBoardState s1
  if r.2.2 then (s1, StatusMsg.someIncorrect) else (s1, StatusMsg.allCorrect)

/-- The flat record written by `saveGameState` (the JSON payload; candidate
sets are stored as ordered lists via `Array.from`). -/
structure SavedState where
  puzzle : Grid
  solution : Grid
  userValues : Grid
  possibleNumbers : List (List Nat)
  selectedCell : Option Nat
  difficulty : Difficulty
  elapsedTime : Nat
  isCompleted : Bool
  showErrors : Bool
deriving DecidableEq

/-- JS `saveGameState()`: build the flat record (`Array.from` on each set is the
identity on its insertion-ordered element list). -/
def saveGameState (s : GameState) : SavedState :=
  { puzzle := s.puzzle
    solution := s.solution
    userValues := s.userValues
    possibleNumbers := s.possibleNumbers.map (fun set => set)
    selectedCell := s.selectedCell
    difficulty := s.difficulty
    elapsedTime := s.elapsedTime
    isCompleted := s.isCompleted
    showErrors := s.showErrors }

/-- JS `loadGameState()` on a present, well-formed record: rebuild the session,
reconstructing each candidate set with `new Set(arr)`. -/
def loadGameState (r : SavedState) : GameState :=
  { puzzle := r.puzzle
    solution := r.solution
    userValues := r.userValues
    possibleNumbers := r.possibleNumbers.map setFromList
    selectedCell := r.selectedCell
    difficulty := r.difficulty
    elapsedTime := r.elapsedTime
    isCompleted := r.isCompleted
    showErrors := r.showErrors }

/-! ## Specification-side predicates -/

/-- Predicate: the grid is a well-formed 9x9 array of arrays. -/
def shaped (g : Grid) : Prop := g.length = 9 ∧ ∀ row ∈ g, row.length = 9

/-- Predicate: every cell value is at most 9. -/
def cellsLe9 (g : Grid) : Prop := ∀ r, r < 9 → ∀ c, c < 9 → getCell g r c ≤ 9

/-- Predicate: no two distinct cells sharing a row, column, or 3x3 box hold
the same non-zero value. -/
def noConflicts (g : Grid) : Prop :=
  ∀ r1, r1 < 9 → ∀ c1, c1 < 9 → ∀ r2, r2 < 9 → ∀ c2, c2 < 9 →
    (r1, c1) ≠ (r2, c2) →
    (r1 = r2 ∨ c1 = c2 ∨ (r1 / 3 = r2 / 3 ∧ c1 / 3 = c2 / 3)) →
    getCell g r1 c1 ≠ 0 → getCell g r1 c1 ≠ getCell g r2 c2

/-- Count of occurrences of digit `d` in row `r` of the grid. -/
def digitCountInRow (g : Grid) (r d : Nat) : Nat :=
  ((Finset.range 9).filter (fun c => getCell g r c = d)).card

/-- Count of occurrences of digit `d` in column `c` of the grid. -/
def digitCountInCol (g : Grid) (c d : Nat) : Nat :=
  ((Finset.range 9).filter (fun r => getCell g r c = d)).card

/-- Count of occurrences of digit `d` in the 3x3 box numbered `b` (box origin
`(b/3*3, b%3*3)`). -/
def digitCountInBox (g : Grid) (b d : Nat) : Nat :=
  ((Finset.range 9).filter
    (fun k => getCell g (b / 3 * 3 + k / 3) (b % 3 * 3 + k % 3) = d)).card

/-- Linear indices (0..80) of the zero-valued cells of the grid. -/
def zeroIndexSet (g : Grid) : Finset Nat :=
  (Finset.range 81).filter (fun i => getCell g (i / 9) (i % 9) = 0)

/-- Number of zero cells of the 9x9 grid. -/
def countZeros (g : Grid) : Nat := (zeroIndexSet g).card

/-- Projection `allFilled` of `checkBoardState`. -/
def allFilled (s : GameState) : Bool := (checkBoardState s).1

/-- Projection `allCorrect` of `checkBoardState`. -/
def allCorrect (s : GameState) : Bool := (checkBoardState s).2.1

/-- Projection `hasErrors` of `checkBoardState`. -/
def hasErrors (s : GameState) : Bool := (checkBoardState s).2.2

/-- Claim C4's reading of validity: `num` appears at no cell other than
`(row, col)` itself in row `row`, column `col`, or the 3x3 box with origin
`(row - row % 3, col - col % 3)`. -/
def appearsNowhereElse (g : Grid) (row col num : Nat) : Prop :=
  (∀ c, c < 9 → c ≠ col → getCell g row c ≠ num) ∧
  (∀ r, r < 9 → r ≠ row → getCell g r col ≠ num) ∧
  (∀ dr, dr < 3 → ∀ dc, dc < 3 →
    (row - row % 3 + dr, col - col % 3 + dc) ≠ (row, col) →
    getCell g (row - row % 3 + dr) (col - col % 3 + dc) ≠ num)

/-- Amended reading of validity: `num` appears at no cell at all (the target
cell included) in row `row`, column `col`, or the 3x3 box with origin
`(row - row % 3, col - col % 3)`. -/
def appearsNowhere (g : Grid) (row col num : Nat) : Prop :=
  (∀ c, c < 9 → getCell g row c ≠ num) ∧
  (∀ r, r < 9 → getCell g r col ≠ num) ∧
  (∀ dr, dr < 3 → ∀ dc, dc < 3 →
    getCell g (row - row % 3 + dr) (col - col % 3 + dc) ≠ num)

/-- Predicate: digit `d` (in 1..9) occurs nowhere in the cell's row, column,
or 3x3 box of the grid — `d` is a remaining candidate of the cell. -/
def absentFromUnits (g : Grid) (row col d : Nat) : Prop :=
  (1 ≤ d ∧ d ≤ 9) ∧
  (∀ c, c < 9 → getCell g row c ≠ d) ∧
  (∀ r, r < 9 → getCell g r col ≠ d) ∧
  (∀ dr, dr < 3 → ∀ dc, dc < 3 →
    getCell g (row / 3 * 3 + dr) (col / 3 * 3 + dc) ≠ d)

/-- Invariant: a cell with a non-zero user value has an empty candidate set. -/
def valuesNotesExclusive (s : GameState) : Prop :=
  ∀ i, i < 81 → getCell s.userValues (i / 9) (i % 9) ≠ 0 →
    s.possibleNumbers.getD i [] = []

/-! ## Concrete inputs used by witnesses and counterexamples -/

/-- Value of a fixed reference Sudoku solution at `(r, c)`. -/
def solVal (r c : Nat) : Nat := (3 * r + r / 3 + c) % 9 + 1

/-- Grid form of the fixed reference solution. -/
def sol0 : Grid :=
  (List.range 9).map (fun r => (List.range 9).map (fun c => solVal r c))

/-- Fisher-Yates choices that bring digit `d` to the front of `[1..9]`. -/
def mkRands (d : Nat) : List Nat :=
  (List.range 8).map (fun k => if 8 - k = d - 1 then 0 else 8 - k)

/-- Randomness oracle steering the backtracking fill straight to `sol0`. -/
def goodRand (g : Grid) : List Nat :=
  match findEmptyCell g with
  | some rc => mkRands (solVal rc.1 rc.2)
  | none => []

/-- Session one set-value away from correct completion (cell 0 is empty). -/
def stC3 : GameState :=
  { puzzle := emptyGrid
    solution := sol0
    userValues := setCell sol0 0 0 0
    possibleNumbers := List.replicate 81 []
    selectedCell := none
    difficulty := .low
    elapsedTime := 0
    isCompleted := false
    showErrors := false }

/-- Grid with a single 1 at `(0, 0)`. -/
def gC4 : Grid := setCell emptyGrid 0 0 1

/-- Completed session whose cell 0 is not an initial clue. -/
def stC6 : GameState :=
  { puzzle := emptyGrid
    solution := sol0
    userValues := sol0
    possibleNumbers := List.replicate 81 []
    selectedCell := some 0
    difficulty := .low
    elapsedTime := 0
    isCompleted := true
    showErrors := true }

/-- Fresh empty session over the reference solution. -/
def stC7 : GameState :=
  { puzzle := emptyGrid
    solution := sol0
    userValues := emptyGrid
    possibleNumbers := List.replicate 81 []
    selectedCell := none
    difficulty := .low
    elapsedTime := 0
    isCompleted := false
    showErrors := false }

/-- Session whose cell 8 is the last empty cell of row 0 (forced value 9). -/
def stC8 : GameState :=
  { puzzle := emptyGrid
    solution := sol0
    userValues := setCell sol0 0 8 0
    possibleNumbers := List.replicate 81 []
    selectedCell := none
    difficulty := .low
    elapsedTime := 0
    isCompleted := false
    showErrors := false }

/-- Session whose selected cell 0 is an initial clue. -/
def stC9 : GameState :=
  { puzzle := sol0
    solution := sol0
    userValues := sol0
    possibleNumbers := List.replicate 81 []
    selectedCell := some 0
    difficulty := .low
    elapsedTime := 0
    isCompleted := false
    showErrors := false }

/-! ## Basic lemmas about cells -/

theorem getD_eq_of_lt {α : Type} (l : List α) (d : α) {n : Nat} (h : n < l.length) :
    l.getD n d = l[n] := by
  rw [List.getD_eq_getElem?_getD, List.getElem?_eq_getElem h, Option.getD_some]

theorem rowLength {g : Grid} (h : shaped g) {r : Nat} (hr : r < 9) :
    (g.getD r []).length = 9 := by
  have hrl : r < g.length := h.1 ▸ hr
  rw [getD_eq_of_lt _ _ hrl]
  exact h.2 _ (List.getElem_mem hrl)

theorem getD_set_self {α : Type} (l : List α) (d a : α) {n : Nat} (h : n < l.length) :
    (l.set n a).getD n d = a := by
  rw [List.getD_eq_getElem?_getD, List.getElem?_set_self h, Option.getD_some]

theorem getD_set_ne {α : Type} (l : List α) (d a : α) {m n : Nat} (h : m ≠ n) :
    (l.set m a).getD n d = l.getD n d := by
  rw [List.getD_eq_getElem?_getD, List.getElem?_set_ne h, ← List.getD_eq_getElem?_getD]

theorem getCell_setCell_self {g : Grid} (h : shaped g) {r c : Nat} (hr : r < 9) (hc : c < 9)
    (v : Nat) : getCell (setCell g r c v) r c = v := by
  have hrl : r < g.length := h.1 ▸ hr
  have hcl : c < (g.getD r []).length := by rw [rowLength h hr]; exact hc
  unfold getCell setCell
  rw [getD_set_self _ _ _ hrl, getD_set_self _ _ _ hcl]

theorem getCell_setCell_ne {g : Grid} {r c r' c' : Nat} (v : Nat) (h : r ≠ r' ∨ c ≠ c') :
    getCell (setCell g r c v) r' c' = getCell g r' c' := by
  unfold getCell setCell
  rcases h with h | h
  · rw [getD_set_ne _ _ _ h]
  · by_cases hrr : r = r'
    · subst hrr
      by_cases hrl : r < g.length
      · rw [getD_set_self _ _ _ hrl, getD_set_ne _ _ _ h]
      · rw [List.set_eq_of_length_le (Nat.le_of_not_lt hrl)]
    · rw [getD_set_ne _ _ _ hrr]

theorem shaped_setCell {g : Grid} (h : shaped g) {r : Nat} (c v : Nat) (hr : r < 9) :
    shaped (setCell g r c v) := by
  constructor
  · rw [setCell, List.length_set]; exact h.1
  · intro row hrow
    rcases List.mem_or_eq_of_mem_set hrow with h1 | h1
    · exact h.2 _ h1
    · rw [h1, List.length_set]; exact rowLength h hr

theorem cellIndex_ne {i j : Nat} (h : i ≠ j) :
    i / 9 ≠ j / 9 ∨ i % 9 ≠ j % 9 := by omega

/-! ## C5: save/load round trip -/

theorem mem_setFromList_aux (l : List Nat) : ∀ (acc : List Nat) (n : Nat),
    (n ∈ l.foldl (fun acc x => if acc.contains x then acc else acc ++ [x]) acc) ↔
      n ∈ acc ∨ n ∈ l := by
  induction l with
  | nil => simp
  | cons x t ih =>
    intro acc n
    rw [List.foldl_cons, ih]
    by_cases hx : acc.contains x
    · rw [if_pos hx]
      have hx' : x ∈ acc := List.elem_iff.mp hx
      simp only [List.mem_cons]
      constructor
      · rintro (h | h)
        · exact Or.inl h
        · exact Or.inr (Or.inr h)
      · rintro (h | h | h)
        · exact Or.inl h
        · exact Or.inl (h ▸ hx')
        · exact Or.inr h
    · rw [if_neg hx]
      simp [List.mem_append, List.mem_cons, or_assoc]

theorem mem_setFromList (l : List Nat) (n : Nat) : n ∈ setFromList l ↔ n ∈ l := by
  rw [setFromList, mem_setFromList_aux]
  simp

/-- C5: serializing a session with `saveGameState` and deserializing with
`loadGameState` reproduces the puzzle, solution, user values, and the per-cell
candidate sets (compared as sets). -/
theorem save_load_roundTrip (s : GameState) :
    (loadGameState (saveGameState s)).puzzle = s.puzzle ∧
    (loadGameState (saveGameState s)).solution = s.solution ∧
    (loadGameState (saveGameState s)).userValues = s.userValues ∧
    ∀ i n, (n ∈ (loadGameState (saveGameState s)).possibleNumbers.getD i [] ↔
      n ∈ s.possibleNumbers.getD i []) := by
  refine ⟨rfl, rfl, rfl, ?_⟩
  intro i n
  show n ∈ ((s.possibleNumbers.map (fun set => set)).map setFromList).getD i [] ↔ _
  rw [List.map_id']
  rw [List.getD_eq_getElem?_getD, List.getElem?_map]
  cases h : s.possibleNumbers[i]? with
  | none =>
    rw [List.getD_eq_getElem?_getD, h]
    simp
  | some a =>
    rw [List.getD_eq_getElem?_getD, h]
    simpa using mem_setFromList a n

/-! ## C10: manual validation frame -/

theorem checkBoardState_hasErrors_iff (s : GameState) : (checkBoardState s).2.2 = true ↔
    ∃ i, i < 81 ∧
      getCell s.userValues (i / 9) (i % 9) ≠ getCell s.solution (i / 9) (i % 9) ∧
      getCell s.userValues (i / 9) (i % 9) ≠ 0 := by
  unfold checkBoardState
  simp [List.any_eq_true, List.mem_range]

/-- C10: `validateBoard` turns on `showErrors` and reports whether any filled
cell differs from the solution, changing nothing else in the session — in
particular it never sets the completed flag. -/
theorem validateBoard_frame (s : GameState) :
    (validateBoard s).1 = { s with showErrors := true } ∧
    (validateBoard s).1.isCompleted = s.isCompleted ∧
    ((validateBoard s).2 = StatusMsg.someIncorrect ↔
      ∃ i, i < 81 ∧
        getCell s.userValues (i / 9) (i % 9) ≠ getCell s.solution (i / 9) (i % 9) ∧
        getCell s.userValues (i / 9) (i % 9) ≠ 0) := by
  have hcb : checkBoardState { s with showErrors := true } = checkBoardState s := rfl
  refine ⟨?_, ?_, ?_⟩
  · unfold validateBoard
    dsimp only
    split <;> rfl
  · unfold validateBoard
    dsimp only
    split <;> rfl
  · unfold validateBoard
    dsimp only
    split
    · rename_i hE
      rw [hcb] at hE
      simpa using (checkBoardState_hasErrors_iff s).mp hE
    · rename_i hE
      rw [hcb] at hE
      constructor
      · intro h
        exact absurd h (by simp)
      · intro h
        refine absurd ((checkBoardState_hasErrors_iff s).mpr ?_) hE
        simpa using h

/-! ## C9: invalid edits are silent no-ops -/

/-- C9: a digit key, Delete, or Backspace on a selected initial (clue) cell
leaves the state, the key-press memory, and the status untouched, and
`clearCell` on a clue cell is the identity. -/
theorem invalid_edit_noop (s : GameState) (last : KeyPress) (shift : Bool)
    (now index num : Nat)
    (hsel : s.selectedCell = some index)
    (hinit : getCell s.puzzle (index / 9) (index % 9) ≠ 0) :
    handleKeyDown s last (.digit num) shift now = (s, last, none) ∧
    handleKeyDown s last .delete shift now = (s, last, none) ∧
    handleKeyDown s last .backspace shift now = (s, last, none) ∧
    clearCell s index = s := by
  refine ⟨?_, ?_, ?_, ?_⟩
  · unfold handleKeyDown
    rw [hsel]
    cases hC : s.isCompleted <;> simp [hC, hinit]
  · unfold handleKeyDown
    rw [hsel]
    cases hC : s.isCompleted <;> simp [hC, hinit]
  · unfold handleKeyDown
    rw [hsel]
    cases hC : s.isCompleted <;> simp [hC, hinit]
  · unfold clearCell
    rw [if_neg hinit]

/-- C9 witness: the no-op holds on a concrete session whose selected cell is
a clue cell. -/
theorem invalid_edit_noop_witness :
    handleKeyDown stC9 ⟨none, 0⟩ (.digit 5) false 0 = (stC9, ⟨none, 0⟩, none) ∧
    handleKeyDown stC9 ⟨none, 0⟩ .delete false 0 = (stC9, ⟨none, 0⟩, none) ∧
    handleKeyDown stC9 ⟨none, 0⟩ .backspace false 0 = (stC9, ⟨none, 0⟩, none) ∧
    clearCell stC9 0 = stC9 :=
  invalid_edit_noop stC9 ⟨none, 0⟩ false 0 0 5 (by decide) (by decide)

/-! ## C3: completion check after a set-value -/

theorem checkCompletion_userValues (t : GameState) :
    (checkCompletion t).1.userValues = t.userValues ∧
    (checkCompletion t).1.possibleNumbers = t.possibleNumbers := by
  unfold checkCompletion
  dsimp only
  split
  · split <;> exact ⟨rfl, rfl⟩
  · exact ⟨rfl, rfl⟩

theorem checkCompletion_spec (t : GameState) (hc : t.isCompleted = false) :
    (allFilled (checkCompletion t).1 = true →
      (checkCompletion t).1.showErrors = true ∧
      ((checkCompletion t).1.isCompleted = true ↔
        allCorrect (checkCompletion t).1 = true)) ∧
    (allFilled (checkCompletion t).1 = false →
      (checkCompletion t).1.showErrors = t.showErrors ∧
      (checkCompletion t).1.isCompleted = t.isCompleted) := by
  have e1 : allFilled (checkCompletion t).1 = (checkBoardState t).1 := by
    unfold checkCompletion allFilled
    dsimp only
    split
    · split <;> rfl
    · rfl
  have e2 : allCorrect (checkCompletion t).1 = (checkBoardState t).2.1 := by
    unfold checkCompletion allCorrect
    dsimp only
    split
    · split <;> rfl
    · rfl
  have e3 : (checkBoardState t).1 = true → (checkCompletion t).1.showErrors = true := by
    intro h1
    unfold checkCompletion
    dsimp only
    rw [if_pos h1]
    split <;> rfl
  have e4 : (checkBoardState t).1 = true → (checkBoardState t).2.1 = true →
      (checkCompletion t).1.isCompleted = true := by
    intro h1 h2
    unfold checkCompletion
    dsimp only
    rw [if_pos h1, if_pos h2]
  have e5 : (checkBoardState t).1 = true → (checkBoardState t).2.1 = false →
      (checkCompletion t).1.isCompleted = t.isCompleted := by
    intro h1 h2
    unfold checkCompletion
    dsimp only
    rw [if_pos h1, if_neg (by simp [h2])]
  have e6 : (checkBoardState t).1 = false → (checkCompletion t).1 = t := by
    intro h1
    unfold checkCompletion
    dsimp only
    rw [if_neg (by simp [h1])]
  constructor
  · intro hF
    rw [e1] at hF
    refine ⟨e3 hF, ?_⟩
    rw [e2]
    constructor
    · intro hC
      by_cases h2 : (checkBoardState t).2.1 = true
      · exact h2
      · have h2' : (checkBoardState t).2.1 = false := by
          cases hx : (checkBoardState t).2.1
          · rfl
          · exact absurd hx h2
        rw [e5 hF h2', hc] at hC
        exact absurd hC (by simp)
    · intro h2
      exact e4 hF h2
  · intro hF
    rw [e1] at hF
    have hF' : (checkBoardState t).1 = false := by
      cases hx : (checkBoardState t).1
      · rfl
      · rw [hx] at hF
        exact absurd hF (by simp)
    rw [e6 hF']
    exact ⟨rfl, rfl⟩

/-- C3: after a set-value operation the completion check scans the whole
board; if every user value is non-zero then `showErrors` is turned on and the
completed flag ends up true exactly when every user value matches the
solution, while if some cell is still empty both flags are left unchanged. -/
theorem setFinalValue_completion (s : GameState) (index num : Nat)
    (hc : s.isCompleted = false) :
    (allFilled (setFinalValue s index num).1 = true →
      (setFinalValue s index num).1.showErrors = true ∧
      ((setFinalValue s index num).1.isCompleted = true ↔
        allCorrect (setFinalValue s index num).1 = true)) ∧
    (allFilled (setFinalValue s index num).1 = false →
      (setFinalValue s index num).1.showErrors = s.showErrors ∧
      (setFinalValue s index num).1.isCompleted = s.isCompleted) :=
  checkCompletion_spec
    { s with
      userValues := setCell s.userValues (index / 9) (index % 9) num,
      possibleNumbers := s.possibleNumbers.set index [] } hc

/-- C3 witness: a concrete not-yet-completed session one correct set-value
away from completion. -/
theorem setFinalValue_completion_witness :
    (allFilled (setFinalValue stC3 0 1).1 = true →
      (setFinalValue stC3 0 1).1.showErrors = true ∧
      ((setFinalValue stC3 0 1).1.isCompleted = true ↔
        allCorrect (setFinalValue stC3 0 1).1 = true)) ∧
    (allFilled (setFinalValue stC3 0 1).1 = false →
      (setFinalValue stC3 0 1).1.showErrors = stC3.showErrors ∧
      (setFinalValue stC3 0 1).1.isCompleted = stC3.isCompleted) :=
  setFinalValue_completion stC3 0 1 (by decide)

/-! ## C6: edits after completion -/

/-- C6 evidence: on a completed session whose cell 0 is not a clue cell,
`clearCell` (reachable from the context menu, which has no completion guard)
still zeroes the user value: edits are not all disallowed after completion. -/
theorem clearCell_edits_completed_session :
    stC6.isCompleted = true ∧
    getCell stC6.puzzle 0 0 = 0 ∧
    getCell stC6.userValues 0 0 = 1 ∧
    getCell (clearCell stC6 0).userValues 0 0 = 0 ∧
    (clearCell stC6 0).isCompleted = true := by decide

/-! ## C7: values and notes are mutually exclusive -/

theorem setD_getD_empty (pn : List (List Nat)) (index : Nat) :
    (pn.set index []).getD index [] = [] := by
  by_cases hl : index < pn.length
  · exact getD_set_self _ _ _ hl
  · rw [List.set_eq_of_length_le (Nat.le_of_not_lt hl)]
    exact List.getD_eq_default _ _ (Nat.le_of_not_lt hl)

/-- C7: each transition operation preserves the invariant that a cell with a
non-zero user value has an empty candidate set — set-value clears the cell's
notes, toggling a candidate first clears the cell's value, clearing and
auto-filling keep values and notes exclusive, and double-activation composes
these operations. -/
theorem ops_preserve_value_note_exclusion (s : GameState) (index num : Nat)
    (hidx : index < 81) (hsh : shaped s.userValues) (h : valuesNotesExclusive s) :
    valuesNotesExclusive (setFinalValue s index num).1 ∧
    valuesNotesExclusive (togglePossibleNumber s index num) ∧
    valuesNotesExclusive (clearCell s index) ∧
    valuesNotesExclusive (autoFillPossibleNumbers s index) ∧
    valuesNotesExclusive (handleCellDoubleClick s index).1 := by
  have hVNE : ∀ t : GameState, valuesNotesExclusive t →
      valuesNotesExclusive (checkCompletion t).1 := by
    intro t ht
    unfold valuesNotesExclusive
    rw [(checkCompletion_userValues t).1, (checkCompletion_userValues t).2]
    exact ht
  have hset : ∀ m : Nat, valuesNotesExclusive (setFinalValue s index m).1 := by
    intro m
    refine hVNE _ ?_
    intro i hi hval
    by_cases hii : i = index
    · subst hii
      exact setD_getD_empty _ _
    · have hne := cellIndex_ne (fun e => hii e.symm)
      rw [getCell_setCell_ne _ hne] at hval
      show (s.possibleNumbers.set index []).getD i [] = []
      rw [getD_set_ne _ _ _ (fun e => hii e.symm)]
      exact h i hi hval
  have hauto : valuesNotesExclusive (autoFillPossibleNumbers s index) := by
    unfold autoFillPossibleNumbers
    dsimp only
    split
    · exact h
    · rename_i hg
      intro i hi hval
      by_cases hii : i = index
      · subst hii
        exact absurd hval (by push_neg at hg; exact fun hv => hv (hg.2))
      · show (s.possibleNumbers.set index _).getD i [] = []
        rw [getD_set_ne _ _ _ (fun e => hii e.symm)]
        exact h i hi hval
  refine ⟨hset num, ?_, ?_, hauto, ?_⟩
  · unfold togglePossibleNumber
    dsimp only
    by_cases hv0 : getCell s.userValues (index / 9) (index % 9) ≠ 0
    · rw [if_pos hv0]
      intro i hi hval
      dsimp only at hval ⊢
      by_cases hii : i = index
      · subst hii
        rw [getCell_setCell_self hsh (by omega) (by omega)] at hval
        exact absurd rfl hval
      · have hne := cellIndex_ne (fun e => hii e.symm)
        rw [getCell_setCell_ne _ hne] at hval
        rw [getD_set_ne _ _ _ (fun e => hii e.symm)]
        exact h i hi hval
    · rw [if_neg hv0]
      intro i hi hval
      dsimp only at hval ⊢
      by_cases hii : i = index
      · subst hii
        exact absurd hval hv0
      · rw [getD_set_ne _ _ _ (fun e => hii e.symm)]
        exact h i hi hval
  · unfold clearCell
    dsimp only
    split
    · intro i hi hval
      dsimp only at hval ⊢
      by_cases hii : i = index
      · subst hii
        exact setD_getD_empty _ _
      · have hne := cellIndex_ne (fun e => hii e.symm)
        rw [getCell_setCell_ne _ hne] at hval
        rw [getD_set_ne _ _ _ (fun e => hii e.symm)]
        exact h i hi hval
    · exact h
  · unfold handleCellDoubleClick
    dsimp only
    split
    · exact h
    · split
      · split
        · exact hset _
        · exact hauto
      · exact hauto

/-- C7 witness: the preservation theorem applied to a concrete fresh
session. -/
theorem ops_preserve_value_note_exclusion_witness :
    valuesNotesExclusive (setFinalValue stC7 0 5).1 ∧
    valuesNotesExclusive (togglePossibleNumber stC7 0 5) ∧
    valuesNotesExclusive (clearCell stC7 0) ∧
    valuesNotesExclusive (autoFillPossibleNumbers stC7 0) ∧
    valuesNotesExclusive (handleCellDoubleClick stC7 0).1 :=
  ops_preserve_value_note_exclusion stC7 0 5 (by decide)
    (by unfold shaped; decide) (by unfold valuesNotesExclusive; decide)

/-! ## C4: characterization of isValidPlacement -/

theorem isValidPlacement_iff (g : Grid) (row col num : Nat) :
    isValidPlacement g row col num = true ↔
      (∀ c, c < 9 → getCell g row c ≠ num) ∧
      (∀ r, r < 9 → getCell g r col ≠ num) ∧
      (∀ dr, dr < 3 → ∀ dc, dc < 3 →
        getCell g (row / 3 * 3 + dr) (col / 3 * 3 + dc) ≠ num) := by
  unfold isValidPlacement
  simp [List.all_eq_true, List.mem_range, and_assoc]

/-- C4 counterexample: on the grid holding a single 1 at cell (0,0) — values
in [0,9] — placing num = 1 at (row,col) = (0,0) is reported invalid by the
code although 1 appears at no cell other than (0,0) itself, refuting the
claimed equivalence. -/
theorem isValidPlacement_claim_counterexample :
    cellsLe9 gC4 ∧
    ¬ (isValidPlacement gC4 0 0 1 = true ↔ appearsNowhereElse gC4 0 0 1) := by
  unfold cellsLe9 appearsNowhereElse
  decide

/-- C4 (amended): for grids with values in [0,9], rows/columns in 0..8 and
num in 1..9, `isValidPlacement` returns true iff `num` appears at no cell at
all (the target cell included) of the target row, column, and 3x3 box. -/
theorem isValidPlacement_characterization (g : Grid) (row col num : Nat)
    (_hrow : row < 9) (_hcol : col < 9) (_hnum1 : 1 ≤ num) (_hnum9 : num ≤ 9)
    (_hg : cellsLe9 g) :
    isValidPlacement g row col num = true ↔ appearsNowhere g row col num := by
  have hr3 : row - row % 3 = row / 3 * 3 := by omega
  have hc3 : col - col % 3 = col / 3 * 3 := by omega
  rw [isValidPlacement_iff]
  unfold appearsNowhere
  rw [hr3, hc3]

/-- C4 witness: the amended characterization evaluated on the all-zero
grid. -/
theorem isValidPlacement_characterization_witness :
    isValidPlacement emptyGrid 0 0 1 = true ↔ appearsNowhere emptyGrid 0 0 1 :=
  isValidPlacement_characterization emptyGrid 0 0 1 (by decide) (by decide)
    (by decide) (by decide) (by unfold cellsLe9; decide)

/-! ## Fisher-Yates shuffle produces a permutation -/

theorem perm_getD_cons_set (a : Nat) : ∀ (t : List Nat) (k : Nat), k < t.length →
    (t.getD k 0 :: t.set k a).Perm (a :: t) := by
  intro t
  induction t with
  | nil =>
    intro k hk
    simp at hk
  | cons b t' ih =>
    intro k hk
    cases k with
    | zero =>
      simp only [List.getD_cons_zero, List.set_cons_zero]
      exact List.Perm.swap a b t'
    | succ k' =>
      simp only [List.getD_cons_succ, List.set_cons_succ]
      have hk' : k' < t'.length := by simpa using hk
      refine List.Perm.trans (List.Perm.swap b (t'.getD k' 0) (t'.set k' a)) ?_
      refine List.Perm.trans (List.Perm.cons b (ih k' hk')) ?_
      exact List.Perm.swap a b t'

theorem swapList_perm : ∀ (l : List Nat) (i j : Nat), i < l.length → j < l.length →
    (swapList l i j).Perm l := by
  intro l
  induction l with
  | nil =>
    intro i j hi _
    simp at hi
  | cons a t ih =>
    intro i j hi hj
    cases i with
    | zero =>
      cases j with
      | zero =>
        unfold swapList
        simp [List.set_cons_zero, List.getD_cons_zero]
      | succ j' =>
        unfold swapList
        simp only [List.getD_cons_zero, List.getD_cons_succ, List.set_cons_zero,
          List.set_cons_succ]
        exact perm_getD_cons_set a t j' (by simpa using hj)
    | succ i' =>
      cases j with
      | zero =>
        unfold swapList
        simp only [List.getD_cons_zero, List.getD_cons_succ, List.set_cons_zero,
          List.set_cons_succ]
        exact perm_getD_cons_set a t i' (by simpa using hi)
      | succ j' =>
        have h1 : swapList (a :: t) (i' + 1) (j' + 1) = a :: swapList t i' j' := by
          unfold swapList
          simp [List.getD_cons_succ, List.set_cons_succ]
        rw [h1]
        exact List.Perm.cons a (ih i' j' (by simpa using hi) (by simpa using hj))

theorem shuffleAux_perm : ∀ (i : Nat) (l rands : List Nat), i < l.length →
    (shuffleAux l rands i).Perm l := by
  intro i
  induction i with
  | zero =>
    intro l rands _
    exact List.Perm.refl l
  | succ i' ih =>
    intro l rands h
    unfold shuffleAux
    have hj : rands.headD 0 % (i' + 2) < l.length := by
      have := Nat.mod_lt (rands.headD 0) (y := i' + 2) (by omega)
      omega
    have hswap := swapList_perm l (i' + 1) (rands.headD 0 % (i' + 2)) h hj
    have hlen : i' < (swapList l (i' + 1) (rands.headD 0 % (i' + 2))).length := by
      rw [hswap.length_eq]
      omega
    exact (ih _ rands.tail hlen).trans hswap

theorem shuffleArray_perm (l rands : List Nat) : (shuffleArray l rands).Perm l := by
  unfold shuffleArray
  split
  · exact List.Perm.refl l
  · rename_i n hn
    exact shuffleAux_perm n l rands (by omega)

/-! ## C2: the puzzle carver -/

theorem countZeros_eq_zero {g : Grid}
    (h : ∀ r, r < 9 → ∀ c, c < 9 → getCell g r c ≠ 0) : countZeros g = 0 := by
  unfold countZeros zeroIndexSet
  rw [Finset.card_eq_zero, Finset.filter_eq_empty_iff]
  intro i hi
  rw [Finset.mem_range] at hi
  exact h (i / 9) (by omega) (i % 9) (by omega)

theorem zeroIndexSet_setCell_zero {g : Grid} (hsh : shaped g) {p : Nat} (hp : p < 81)
    (hnz : getCell g (p / 9) (p % 9) ≠ 0) :
    zeroIndexSet (setCell g (p / 9) (p % 9) 0) = insert p (zeroIndexSet g) := by
  unfold zeroIndexSet
  ext i
  simp only [Finset.mem_filter, Finset.mem_range, Finset.mem_insert]
  constructor
  · rintro ⟨hi, hzero⟩
    by_cases hip : i = p
    · exact Or.inl hip
    · right
      refine ⟨hi, ?_⟩
      rw [getCell_setCell_ne _ (cellIndex_ne (fun e => hip e.symm))] at hzero
      exact hzero
  · rintro (hip | ⟨hi, hzero⟩)
    · subst hip
      exact ⟨hp, getCell_setCell_self hsh (by omega) (by omega) 0⟩
    · by_cases hip : i = p
      · subst hip
        exact ⟨hi, getCell_setCell_self hsh (by omega) (by omega) 0⟩
      · refine ⟨hi, ?_⟩
        rw [getCell_setCell_ne _ (cellIndex_ne (fun e => hip e.symm))]
        exact hzero

theorem removeLoop_spec (sol : Grid) :
    ∀ (positions : List Nat) (puzzle : Grid) (removed n : Nat),
    shaped puzzle →
    positions.Nodup →
    (∀ p ∈ positions, p < 81 ∧ getCell puzzle (p / 9) (p % 9) ≠ 0) →
    removed ≤ n →
    n - removed ≤ positions.length →
    countZeros puzzle = removed →
    (∀ r, r < 9 → ∀ c, c < 9 → getCell puzzle r c ≠ 0 →
      getCell puzzle r c = getCell sol r c) →
    countZeros (removeLoop puzzle n positions removed) = n ∧
    (∀ r, r < 9 → ∀ c, c < 9 → getCell (removeLoop puzzle n positions removed) r c ≠ 0 →
      getCell (removeLoop puzzle n positions removed) r c = getCell sol r c) := by
  intro positions
  induction positions with
  | nil =>
    intro puzzle removed n _ _ _ hle hlen hcz hagree
    have he : removed = n := by
      simp at hlen
      omega
    subst he
    exact ⟨hcz, hagree⟩
  | cons pos rest ih =>
    intro puzzle removed n hsh hnd hmem hle hlen hcz hagree
    have hred : removeLoop puzzle n (pos :: rest) removed =
        if n ≤ removed then puzzle
        else removeLoop (setCell puzzle (pos / 9) (pos % 9) 0) n rest (removed + 1) := rfl
    by_cases hstop : n ≤ removed
    · have he : removed = n := Nat.le_antisymm hle hstop
      subst he
      rw [hred, if_pos hstop]
      exact ⟨hcz, hagree⟩
    · have hpos := hmem pos (List.mem_cons_self pos rest)
      rw [hred, if_neg hstop]
      have hsh' : shaped (setCell puzzle (pos / 9) (pos % 9) 0) :=
        shaped_setCell hsh _ 0 (by omega)
      apply ih
      · exact hsh'
      · exact hnd.of_cons
      · intro p hp
        have hmp := hmem p (List.mem_cons_of_mem _ hp)
        refine ⟨hmp.1, ?_⟩
        have hne : p ≠ pos := by
          intro e
          subst e
          exact (List.nodup_cons.mp hnd).1 hp
        rw [getCell_setCell_ne _ (cellIndex_ne (fun e => hne e.symm))]
        exact hmp.2
      · omega
      · simp only [List.length_cons] at hlen
        omega
      · unfold countZeros
        rw [zeroIndexSet_setCell_zero hsh hpos.1 hpos.2,
          Finset.card_insert_of_not_mem (by
            unfold zeroIndexSet
            simp only [Finset.mem_filter, Finset.mem_range, not_and]
            intro _
            exact hpos.2)]
        unfold countZeros at hcz
        rw [hcz]
      · intro r hr c hc hnz
        by_cases hcell : r = pos / 9 ∧ c = pos % 9
        · exfalso
          rcases hcell with ⟨e1, e2⟩
          subst e1
          subst e2
          rw [getCell_setCell_self hsh (by omega) (by omega)] at hnz
          exact hnz rfl
        · have hor : pos / 9 ≠ r ∨ pos % 9 ≠ c := by
            rcases not_and_or.mp hcell with h | h
            · exact Or.inl (fun e => h e.symm)
            · exact Or.inr (fun e => h e.symm)
          rw [getCell_setCell_ne _ hor] at hnz ⊢
          exact hagree r hr c hc hnz

/-- C2: for a fully-filled 9x9 solution grid and any difficulty,
`generatePuzzle` returns a grid with exactly `cellsToRemove` (30/45/55) zero
cells that agrees with the solution at every non-zero cell (the solution
itself is untouched: the carver works on a copy). -/
theorem generatePuzzle_spec (solution : Grid) (difficulty : Difficulty)
    (rands : List Nat) (hsh : shaped solution)
    (hfull : ∀ r, r < 9 → ∀ c, c < 9 → getCell solution r c ≠ 0) :
    countZeros (generatePuzzle solution difficulty rands) =
      (DIFFICULTY_LEVELS difficulty).cellsToRemove ∧
    (∀ r, r < 9 → ∀ c, c < 9 →
      getCell (generatePuzzle solution difficulty rands) r c ≠ 0 →
      getCell (generatePuzzle solution difficulty rands) r c = getCell solution r c) := by
  have hperm := shuffleArray_perm (List.range 81) rands
  have hnd : (shuffleArray (List.range 81) rands).Nodup :=
    hperm.nodup_iff.mpr (List.nodup_range 81)
  have hlen : (shuffleArray (List.range 81) rands).length = 81 := by
    rw [hperm.length_eq, List.length_range]
  have hmem : ∀ p ∈ shuffleArray (List.range 81) rands,
      p < 81 ∧ getCell solution (p / 9) (p % 9) ≠ 0 := by
    intro p hp
    have hp81 : p ∈ List.range 81 := hperm.mem_iff.mp hp
    rw [List.mem_range] at hp81
    exact ⟨hp81, hfull _ (by omega) _ (by omega)⟩
  have hn : (DIFFICULTY_LEVELS difficulty).cellsToRemove ≤ 81 := by
    cases difficulty <;> decide
  exact removeLoop_spec solution (shuffleArray (List.range 81) rands) solution 0
    (DIFFICULTY_LEVELS difficulty).cellsToRemove hsh hnd hmem (by omega)
    (by rw [hlen]; omega) (countZeros_eq_zero hfull)
    (fun r _ c _ _ => rfl)

/-- C2 witness: carving the reference solution at low difficulty leaves
exactly 30 holes. -/
theorem generatePuzzle_spec_witness :
    countZeros (generatePuzzle sol0 Difficulty.low []) = 30 :=
  (generatePuzzle_spec sol0 Difficulty.low [] (by unfold shaped; decide)
    (by decide)).1

/-! ## C8: double-activation and the only-candidate deduction -/

theorem foldl_erase_nodup (f : Nat → Nat) :
    ∀ (k : Nat) (l : List Nat), l.Nodup →
      ((List.range k).foldl (fun acc i => acc.erase (f i)) l).Nodup := by
  intro k
  induction k with
  | zero =>
    intro l hl
    simpa using hl
  | succ k' ih =>
    intro l hl
    rw [List.range_succ, List.foldl_append]
    simp only [List.foldl_cons, List.foldl_nil]
    exact (ih l hl).erase _

theorem mem_foldl_erase (f : Nat → Nat) {d : Nat} :
    ∀ (k : Nat) (l : List Nat), l.Nodup →
      (d ∈ (List.range k).foldl (fun acc i => acc.erase (f i)) l ↔
        d ∈ l ∧ ∀ i, i < k → f i ≠ d) := by
  intro k
  induction k with
  | zero =>
    intro l _
    simp
  | succ k' ih =>
    intro l hl
    rw [List.range_succ, List.foldl_append]
    simp only [List.foldl_cons, List.foldl_nil]
    rw [List.Nodup.mem_erase_iff (foldl_erase_nodup f k' l hl), ih l hl]
    constructor
    · rintro ⟨hne, hdl, hall⟩
      refine ⟨hdl, ?_⟩
      intro i hi
      rcases Nat.lt_succ_iff_lt_or_eq.mp hi with hi' | hi'
      · exact hall i hi'
      · subst hi'
        exact fun e => hne e.symm
    · rintro ⟨hdl, hall⟩
      exact ⟨fun e => hall k' (Nat.lt_succ_self k') e.symm, hdl,
        fun i hi => hall i (Nat.lt_succ_of_lt hi)⟩

theorem foldl2_erase_nodup (f : Nat → Nat → Nat) :
    ∀ (k : Nat) (l : List Nat), l.Nodup →
      ((List.range k).foldl
        (fun acc i => (List.range 3).foldl (fun acc2 j => acc2.erase (f i j)) acc)
        l).Nodup := by
  intro k
  induction k with
  | zero =>
    intro l hl
    simpa using hl
  | succ k' ih =>
    intro l hl
    rw [show List.range (k' + 1) = List.range k' ++ [k'] from List.range_succ k',
      List.foldl_append]
    simp only [List.foldl_cons, List.foldl_nil]
    exact foldl_erase_nodup (f k') 3 _ (ih l hl)

theorem mem_foldl2_erase (f : Nat → Nat → Nat) {d : Nat} :
    ∀ (k : Nat) (l : List Nat), l.Nodup →
      (d ∈ (List.range k).foldl
          (fun acc i => (List.range 3).foldl (fun acc2 j => acc2.erase (f i j)) acc) l ↔
        d ∈ l ∧ ∀ i, i < k → ∀ j, j < 3 → f i j ≠ d) := by
  intro k
  induction k with
  | zero =>
    intro l _
    simp
  | succ k' ih =>
    intro l hl
    rw [show List.range (k' + 1) = List.range k' ++ [k'] from List.range_succ k',
      List.foldl_append]
    simp only [List.foldl_cons, List.foldl_nil]
    rw [mem_foldl_erase (f k') 3 _ (foldl2_erase_nodup f k' l hl), ih l hl]
    constructor
    · rintro ⟨⟨hdl, hall⟩, hall'⟩
      refine ⟨hdl, ?_⟩
      intro i hi j hj
      rcases Nat.lt_succ_iff_lt_or_eq.mp hi with hi' | hi'
      · exact hall i hi' j hj
      · subst hi'
        exact hall' j hj
    · rintro ⟨hdl, hall⟩
      exact ⟨⟨hdl, fun i hi j hj => hall i (Nat.lt_succ_of_lt hi) j hj⟩,
        fun j hj => hall k' (Nat.lt_succ_self k') j hj⟩

theorem nodup_deleteUnitValues (g : Grid) (row col : Nat) :
    (deleteUnitValues g row col).Nodup := by
  unfold deleteUnitValues
  dsimp only
  apply foldl2_erase_nodup
  apply foldl_erase_nodup
  apply foldl_erase_nodup
  decide

theorem mem_deleteUnitValues (g : Grid) (row col d : Nat) :
    d ∈ deleteUnitValues g row col ↔ absentFromUnits g row col d := by
  have h19 : ([1, 2, 3, 4, 5, 6, 7, 8, 9] : List Nat).Nodup := by decide
  have hRow := foldl_erase_nodup (fun c => getCell g row c) 9 _ h19
  have hCol := foldl_erase_nodup (fun r => getCell g r col) 9 _ hRow
  have e3 := mem_foldl2_erase
    (fun dr dc => getCell g (row / 3 * 3 + dr) (col / 3 * 3 + dc)) (d := d) 3 _ hCol
  have e2 := mem_foldl_erase (fun r => getCell g r col) (d := d) 9 _ hRow
  have e1 := mem_foldl_erase (fun c => getCell g row c) (d := d) 9 _ h19
  have hmem19 : d ∈ ([1, 2, 3, 4, 5, 6, 7, 8, 9] : List Nat) ↔ 1 ≤ d ∧ d ≤ 9 := by
    simp only [List.mem_cons, List.not_mem_nil, or_false]
    omega
  rw [hmem19] at e1
  rw [e1] at e2
  rw [e2] at e3
  have hL : d ∈ deleteUnitValues g row col ↔
      ((((1 ≤ d ∧ d ≤ 9) ∧ ∀ c, c < 9 → getCell g row c ≠ d) ∧
        (∀ r, r < 9 → getCell g r col ≠ d)) ∧
        ∀ dr, dr < 3 → ∀ dc, dc < 3 →
          getCell g (row / 3 * 3 + dr) (col / 3 * 3 + dc) ≠ d) := by
    unfold deleteUnitValues
    dsimp only
    exact e3
  rw [hL]
  unfold absentFromUnits
  constructor
  · rintro ⟨⟨⟨hb, hr⟩, hc⟩, hbox⟩
    exact ⟨hb, hr, hc, hbox⟩
  · rintro ⟨hb, hr, hc, hbox⟩
    exact ⟨⟨⟨hb, hr⟩, hc⟩, hbox⟩

theorem findFinalNumber_some_iff (s : GameState) (row col v : Nat) :
    findFinalNumber s row col = some v ↔
      (absentFromUnits s.userValues row col v ∧
        ∀ d, absentFromUnits s.userValues row col d → d = v) := by
  have hnd := nodup_deleteUnitValues s.userValues row col
  have hmem := fun d => mem_deleteUnitValues s.userValues row col d
  unfold findFinalNumber
  cases hl : deleteUnitValues s.userValues row col with
  | nil =>
    constructor
    · intro h
      exact absurd h (by simp)
    · rintro ⟨ha, _⟩
      have := (hmem v).mpr ha
      rw [hl] at this
      exact absurd this (by simp)
  | cons a t =>
    cases t with
    | nil =>
      constructor
      · intro h
        have hav : a = v := by simpa using h
        subst hav
        constructor
        · exact (hmem a).mp (by rw [hl]; exact List.mem_singleton_self a)
        · intro d hd
          have : d ∈ [a] := by rw [← hl]; exact (hmem d).mpr hd
          simpa using this
      · rintro ⟨ha, _⟩
        have : v ∈ [a] := by rw [← hl]; exact (hmem v).mpr ha
        have hva : v = a := by simpa using this
        subst hva
        rfl
    | cons b t' =>
      constructor
      · intro h
        exact absurd h (by simp)
      · rintro ⟨_, huniq⟩
        exfalso
        have hA : a = v := huniq a ((hmem a).mp (by rw [hl]; exact List.mem_cons_self _ _))
        have hB : b = v := huniq b ((hmem b).mp (by
          rw [hl]
          exact List.mem_cons_of_mem _ (List.mem_cons_self _ _)))
        rw [hl] at hnd
        have hab : a ∉ b :: t' := (List.nodup_cons.mp hnd).1
        rw [hA, hB] at hab
        exact hab (List.mem_cons_self _ _)

/-- C8: double-activation on a non-initial empty cell that is the last empty
cell of its row, column, or box and whose units leave a unique absent digit v
writes v into the cell (via set-value); otherwise — no unique absent digit,
or not last in any unit — it overwrites the cell's candidate set with the
freshly recomputed candidates and leaves the user values alone. -/
theorem handleCellDoubleClick_spec (s : GameState) (index : Nat)
    (hidx : index < 81) (hsh : shaped s.userValues)
    (hlen : s.possibleNumbers.length = 81)
    (hp : getCell s.puzzle (index / 9) (index % 9) = 0)
    (hu : getCell s.userValues (index / 9) (index % 9) = 0) :
    (∀ v, (countEmptyCellsInRow s (index / 9) = 1 ∨
           countEmptyCellsInColumn s (index % 9) = 1 ∨
           countEmptyCellsInSquare s (index / 9) (index % 9) = 1) →
      absentFromUnits s.userValues (index / 9) (index % 9) v →
      (∀ d, absentFromUnits s.userValues (index / 9) (index % 9) d → d = v) →
      getCell (handleCellDoubleClick s index).1.userValues (index / 9) (index % 9) = v) ∧
    (((countEmptyCellsInRow s (index / 9) ≠ 1 ∧
       countEmptyCellsInColumn s (index % 9) ≠ 1 ∧
       countEmptyCellsInSquare s (index / 9) (index % 9) ≠ 1) ∨
      ¬ ∃ v, absentFromUnits s.userValues (index / 9) (index % 9) v ∧
        ∀ d, absentFromUnits s.userValues (index / 9) (index % 9) d → d = v) →
      (handleCellDoubleClick s index).1 = autoFillPossibleNumbers s index ∧
      (handleCellDoubleClick s index).1.userValues = s.userValues ∧
      (handleCellDoubleClick s index).1.possibleNumbers.getD index [] =
        deleteUnitValues s.userValues (index / 9) (index % 9)) := by
  have hGuard : ¬(getCell s.puzzle (index / 9) (index % 9) ≠ 0 ∨
      getCell s.userValues (index / 9) (index % 9) ≠ 0) := by
    rw [hp, hu]
    simp
  have hDC : handleCellDoubleClick s index =
      (if (countEmptyCellsInRow s (index / 9) == 1 ||
           countEmptyCellsInColumn s (index % 9) == 1 ||
           countEmptyCellsInSquare s (index / 9) (index % 9) == 1) then
        match findFinalNumber s (index / 9) (index % 9) with
        | some n => setFinalValue s index n
        | none => (autoFillPossibleNumbers s index, none)
      else (autoFillPossibleNumbers s index, none)) := by
    unfold handleCellDoubleClick
    dsimp only
    rw [if_neg hGuard]
  have hAutoEq : autoFillPossibleNumbers s index =
      { s with possibleNumbers :=
          s.possibleNumbers.set index (deleteUnitValues s.userValues (index / 9) (index % 9)) } := by
    unfold autoFillPossibleNumbers
    dsimp only
    rw [if_neg hGuard]
  constructor
  · intro v hlast habs huniq
    have hLastB : (countEmptyCellsInRow s (index / 9) == 1 ||
        countEmptyCellsInColumn s (index % 9) == 1 ||
        countEmptyCellsInSquare s (index / 9) (index % 9) == 1) = true := by
      simp only [Bool.or_eq_true, beq_iff_eq]
      tauto
    rw [hDC, if_pos hLastB,
      (findFinalNumber_some_iff s (index / 9) (index % 9) v).mpr ⟨habs, huniq⟩]
    have huv : (setFinalValue s index v).1.userValues =
        setCell s.userValues (index / 9) (index % 9) v :=
      (checkCompletion_userValues _).1
    rw [huv]
    exact getCell_setCell_self hsh (by omega) (by omega) v
  · intro hcond
    suffices heq : (handleCellDoubleClick s index).1 = autoFillPossibleNumbers s index by
      refine ⟨heq, ?_, ?_⟩
      · rw [heq, hAutoEq]
      · rw [heq, hAutoEq]
        exact getD_set_self _ _ _ (by omega)
    rw [hDC]
    rcases hcond with h3 | hnex
    · have hLB : ¬((countEmptyCellsInRow s (index / 9) == 1 ||
          countEmptyCellsInColumn s (index % 9) == 1 ||
          countEmptyCellsInSquare s (index / 9) (index % 9) == 1) = true) := by
        simp only [Bool.or_eq_true, beq_iff_eq]
        push_neg
        exact ⟨⟨h3.1, h3.2.1⟩, h3.2.2⟩
      rw [if_neg hLB]
    · by_cases hLB : (countEmptyCellsInRow s (index / 9) == 1 ||
          countEmptyCellsInColumn s (index % 9) == 1 ||
          countEmptyCellsInSquare s (index / 9) (index % 9) == 1) = true
      · rw [if_pos hLB]
        cases hf : findFinalNumber s (index / 9) (index % 9) with
        | none => rfl
        | some n =>
          exact absurd ⟨n, (findFinalNumber_some_iff s (index / 9) (index % 9) n).mp hf⟩ hnex
      · rw [if_neg hLB]

/-- C8 witness: on a concrete session whose cell 8 is the only empty cell of
row 0 with unique absent digit 9, double-activation writes 9. -/
theorem handleCellDoubleClick_spec_witness :
    getCell (handleCellDoubleClick stC8 8).1.userValues (8 / 9) (8 % 9) = 9 :=
  ((handleCellDoubleClick_spec stC8 8 (by decide) (by unfold shaped; decide)
      (by decide) (by decide) (by decide)).1 9
    (Or.inl (by decide))
    (by unfold absentFromUnits; decide)
    (by
      intro d hd
      have h1 := hd.1.1
      have h9 := hd.1.2
      interval_cases d <;> first
      | rfl
      | (revert hd; unfold absentFromUnits; decide)))

/-! ## C1: the solution generator fills a fully valid grid -/

theorem getCell_emptyGrid : ∀ r, r < 9 → ∀ c, c < 9 → getCell emptyGrid r c = 0 := by
  decide

theorem findEmptyCell_none {g : Grid} (h : findEmptyCell g = none) :
    ∀ r, r < 9 → ∀ c, c < 9 → getCell g r c ≠ 0 := by
  intro r hr c hc
  rw [findEmptyCell, List.find?_eq_none] at h
  have hmem : (r, c) ∈ (List.range 81).map (fun i => (i / 9, i % 9)) := by
    rw [List.mem_map]
    refine ⟨r * 9 + c, ?_, ?_⟩
    · rw [List.mem_range]
      omega
    · dsimp only
      rw [Prod.mk.injEq]
      omega
  have := h _ hmem
  simpa using this

theorem findEmptyCell_some {g : Grid} {rc : Nat × Nat} (h : findEmptyCell g = some rc) :
    rc.1 < 9 ∧ rc.2 < 9 ∧ getCell g rc.1 rc.2 = 0 := by
  have hp := List.find?_some h
  have hm := List.mem_of_find?_eq_some h
  rw [List.mem_map] at hm
  obtain ⟨i, hi, hie⟩ := hm
  rw [List.mem_range] at hi
  have h0 : getCell g rc.1 rc.2 = 0 := by simpa using hp
  have hie2 : (i / 9, i % 9) = rc := hie
  subst hie2
  refine ⟨?_, ?_, h0⟩ <;> dsimp only <;> omega

theorem cellsLe9_setCell {g : Grid} (hsh : shaped g) (hle : cellsLe9 g)
    {row col n : Nat} (hrow : row < 9) (hcol : col < 9) (hn : n ≤ 9) :
    cellsLe9 (setCell g row col n) := by
  intro r hr c hc
  by_cases he : row = r ∧ col = c
  · obtain ⟨e1, e2⟩ := he
    subst e1
    subst e2
    rw [getCell_setCell_self hsh hrow hcol]
    exact hn
  · have hne : row ≠ r ∨ col ≠ c := not_and_or.mp he
    rw [getCell_setCell_ne _ hne]
    exact hle r hr c hc

theorem noConflicts_setCell {g : Grid} {row col n : Nat} (hsh : shaped g)
    (hg : noConflicts g) (hrow : row < 9) (hcol : col < 9)
    (hv : isValidPlacement g row col n = true) (_hn : n ≠ 0) :
    noConflicts (setCell g row col n) := by
  rw [isValidPlacement_iff] at hv
  obtain ⟨hvrow, hvcol, hvbox⟩ := hv
  have hunit : ∀ r2 c2, r2 < 9 → c2 < 9 →
      (row = r2 ∨ col = c2 ∨ (row / 3 = r2 / 3 ∧ col / 3 = c2 / 3)) →
      getCell g r2 c2 ≠ n := by
    intro r2 c2 hr2 hc2 hu
    rcases hu with he | he | ⟨he1, he2⟩
    · rw [← he]
      exact hvrow c2 hc2
    · rw [← he]
      exact hvcol r2 hr2
    · rw [show r2 = row / 3 * 3 + r2 % 3 from by omega,
        show c2 = col / 3 * 3 + c2 % 3 from by omega]
      exact hvbox (r2 % 3) (by omega) (c2 % 3) (by omega)
  intro r1 hr1 c1 hc1 r2 hr2 c2 hc2 hne hsame hnz
  by_cases h1 : row = r1 ∧ col = c1
  · obtain ⟨e1, e2⟩ := h1
    subst e1
    subst e2
    rw [getCell_setCell_self hsh hrow hcol]
    have hne2 : row ≠ r2 ∨ col ≠ c2 := by
      by_contra hcon
      push_neg at hcon
      exact hne (by rw [hcon.1, hcon.2])
    rw [getCell_setCell_ne _ hne2]
    intro he
    exact hunit r2 c2 hr2 hc2 hsame he.symm
  · have hne1 : row ≠ r1 ∨ col ≠ c1 := not_and_or.mp h1
    rw [getCell_setCell_ne _ hne1] at hnz ⊢
    by_cases h2 : row = r2 ∧ col = c2
    · obtain ⟨e1, e2⟩ := h2
      subst e1
      subst e2
      rw [getCell_setCell_self hsh hrow hcol]
      have hsym : row = r1 ∨ col = c1 ∨ (row / 3 = r1 / 3 ∧ col / 3 = c1 / 3) := by
        rcases hsame with hx | hx | ⟨ha, hb⟩
        · exact Or.inl hx.symm
        · exact Or.inr (Or.inl hx.symm)
        · exact Or.inr (Or.inr ⟨ha.symm, hb.symm⟩)
      exact hunit r1 c1 hr1 hc1 hsym
    · have hne2 : row ≠ r2 ∨ col ≠ c2 := not_and_or.mp h2
      rw [getCell_setCell_ne _ hne2]
      exact hg r1 hr1 c1 hc1 r2 hr2 c2 hc2 hne hsame hnz

theorem tryNums_sound (recur : Grid → Option Grid) (gout : Grid)
    (hrec : ∀ g1 g2, shaped g1 → cellsLe9 g1 → noConflicts g1 →
      recur g1 = some g2 →
      shaped g2 ∧ cellsLe9 g2 ∧ noConflicts g2 ∧
        (∀ r, r < 9 → ∀ c, c < 9 → getCell g2 r c ≠ 0)) :
    ∀ (nums : List Nat) (g : Grid) (row col : Nat),
      shaped g → cellsLe9 g → noConflicts g → row < 9 → col < 9 →
      (∀ m ∈ nums, 1 ≤ m ∧ m ≤ 9) →
      tryNums recur g row col nums = some gout →
      shaped gout ∧ cellsLe9 gout ∧ noConflicts gout ∧
        (∀ r, r < 9 → ∀ c, c < 9 → getCell gout r c ≠ 0) := by
  intro nums
  induction nums with
  | nil =>
    intro g row col _ _ _ _ _ _ h
    exact absurd h (by simp [tryNums])
  | cons m rest ih =>
    intro g row col hsh hle hnc hrow hcol hmem h
    have hstep : tryNums recur g row col (m :: rest) =
        (if isValidPlacement g row col m then
          match recur (setCell g row col m) with
          | some g2 => some g2
          | none => tryNums recur g row col rest
        else tryNums recur g row col rest) := rfl
    rw [hstep] at h
    by_cases hvp : isValidPlacement g row col m = true
    · rw [if_pos hvp] at h
      cases hr : recur (setCell g row col m) with
      | some g2 =>
        rw [hr] at h
        have hm := hmem m (List.mem_cons_self _ _)
        have hg2 : g2 = gout := by simpa using h
        subst hg2
        exact hrec _ _ (shaped_setCell hsh _ _ hrow)
          (cellsLe9_setCell hsh hle hrow hcol hm.2)
          (noConflicts_setCell hsh hnc hrow hcol hvp (by omega)) hr
      | none =>
        rw [hr] at h
        exact ih g row col hsh hle hnc hrow hcol
          (fun m' hm' => hmem m' (List.mem_cons_of_mem _ hm')) h
    · rw [if_neg hvp] at h
      exact ih g row col hsh hle hnc hrow hcol
        (fun m' hm' => hmem m' (List.mem_cons_of_mem _ hm')) h

theorem fillGrid_sound (rand : Grid → List Nat) :
    ∀ (fuel : Nat) (g gout : Grid),
      shaped g → cellsLe9 g → noConflicts g →
      fillGrid rand fuel g = some gout →
      shaped gout ∧ cellsLe9 gout ∧ noConflicts gout ∧
        (∀ r, r < 9 → ∀ c, c < 9 → getCell gout r c ≠ 0) := by
  intro fuel
  induction fuel with
  | zero =>
    intro g gout _ _ _ h
    exact absurd h (by simp [fillGrid])
  | succ fuel' ih =>
    intro g gout hsh hle hnc h
    have hstep : fillGrid rand (fuel' + 1) g =
        (match findEmptyCell g with
         | none => some g
         | some rc => tryNums (fillGrid rand fuel') g rc.1 rc.2
             (shuffleArray [1, 2, 3, 4, 5, 6, 7, 8, 9] (rand g))) := rfl
    rw [hstep] at h
    cases hfe : findEmptyCell g with
    | none =>
      rw [hfe] at h
      have hg : g = gout := by simpa using h
      subst hg
      exact ⟨hsh, hle, hnc, findEmptyCell_none hfe⟩
    | some rc =>
      rw [hfe] at h
      obtain ⟨hr9, hc9, _⟩ := findEmptyCell_some hfe
      have hnums : ∀ m ∈ shuffleArray [1, 2, 3, 4, 5, 6, 7, 8, 9] (rand g),
          1 ≤ m ∧ m ≤ 9 := by
        intro m hm
        have hm19 := (shuffleArray_perm _ (rand g)).mem_iff.mp hm
        simp at hm19
        omega
      exact tryNums_sound (fillGrid rand fuel') gout
        (fun g1 g2 a b c hh => ih g1 g2 a b c hh)
        _ g rc.1 rc.2 hsh hle hnc hr9 hc9 hnums h

theorem exists_unique_digit (f : Fin 9 → Nat) (hrange : ∀ k, 1 ≤ f k ∧ f k ≤ 9)
    (hinj : ∀ k1 k2, f k1 = f k2 → k1 = k2) (d : Nat) (hd1 : 1 ≤ d) (hd9 : d ≤ 9) :
    ∃ k : Fin 9, f k = d ∧ ∀ k', f k' = d → k' = k := by
  have hinj' : Function.Injective
      (fun k : Fin 9 => (⟨f k - 1, by have := hrange k; omega⟩ : Fin 9)) := by
    intro k1 k2 he
    apply hinj
    have h1 := hrange k1
    have h2 := hrange k2
    have hv := congrArg Fin.val he
    simp only [] at hv
    omega
  have hsurj := Finite.injective_iff_surjective.mp hinj'
  obtain ⟨k, hk⟩ := hsurj ⟨d - 1, by omega⟩
  have hkv : f k = d := by
    have hv := congrArg Fin.val hk
    simp only [] at hv
    have := hrange k
    omega
  refine ⟨k, hkv, ?_⟩
  intro k' hk'
  exact hinj k' k (by rw [hk', hkv])

theorem card_filter_eq_one {p : Nat → Prop} [DecidablePred p] {c0 : Nat}
    (h0 : c0 < 9) (hp : p c0) (huniq : ∀ c, c < 9 → p c → c = c0) :
    ((Finset.range 9).filter p).card = 1 := by
  rw [Finset.card_eq_one]
  refine ⟨c0, ?_⟩
  ext x
  simp only [Finset.mem_filter, Finset.mem_range, Finset.mem_singleton]
  constructor
  · rintro ⟨hx, hpx⟩
    exact huniq x hx hpx
  · rintro he
    subst he
    exact ⟨h0, hp⟩

/-- C1: whenever the backtracking fill succeeds on the all-zero grid (this is
what `generateSolution` returns), every row, every column, and every 3x3 box
of the produced grid contains each digit 1..9 exactly once. -/
theorem generateSolution_valid (rand : Grid → List Nat) (fuel : Nat) (g : Grid)
    (h : generateSolution rand fuel = some g) :
    ∀ u, u < 9 → ∀ d, 1 ≤ d → d ≤ 9 →
      digitCountInRow g u d = 1 ∧ digitCountInCol g u d = 1 ∧
      digitCountInBox g u d = 1 := by
  have hempty_sh : shaped emptyGrid := by
    unfold shaped
    decide
  have hempty_le : cellsLe9 emptyGrid := by
    intro r hr c hc
    rw [getCell_emptyGrid r hr c hc]
    omega
  have hempty_nc : noConflicts emptyGrid := by
    intro r1 hr1 c1 hc1 r2 _ c2 _ _ _ hnz
    exact absurd (getCell_emptyGrid r1 hr1 c1 hc1) hnz
  obtain ⟨hshg, hleg, hncg, hnzg⟩ :=
    fillGrid_sound rand fuel emptyGrid g hempty_sh hempty_le hempty_nc h
  intro u hu d hd1 hd9
  refine ⟨?_, ?_, ?_⟩
  · obtain ⟨k, hk, huniq⟩ := exists_unique_digit (fun c : Fin 9 => getCell g u c.val)
      (fun c => ⟨by
          have h0 := hnzg u hu c.val c.isLt
          show 1 ≤ getCell g u c.val
          omega,
        hleg u hu c.val c.isLt⟩)
      (fun k1 k2 he => by
        by_contra hne
        exact hncg u hu k1.val k1.isLt u hu k2.val k2.isLt
          (fun hp => hne (Fin.val_injective (congrArg Prod.snd hp)))
          (Or.inl rfl) (hnzg u hu k1.val k1.isLt) he)
      d hd1 hd9
    exact card_filter_eq_one k.isLt hk
      (fun c hc hpc => congrArg Fin.val (huniq ⟨c, hc⟩ hpc))
  · obtain ⟨k, hk, huniq⟩ := exists_unique_digit (fun r : Fin 9 => getCell g r.val u)
      (fun r => ⟨by
          have h0 := hnzg r.val r.isLt u hu
          show 1 ≤ getCell g r.val u
          omega,
        hleg r.val r.isLt u hu⟩)
      (fun k1 k2 he => by
        by_contra hne
        exact hncg k1.val k1.isLt u hu k2.val k2.isLt u hu
          (fun hp => hne (Fin.val_injective (congrArg Prod.fst hp)))
          (Or.inr (Or.inl rfl)) (hnzg k1.val k1.isLt u hu) he)
      d hd1 hd9
    exact card_filter_eq_one k.isLt hk
      (fun r hr hpr => congrArg Fin.val (huniq ⟨r, hr⟩ hpr))
  · obtain ⟨k, hk, huniq⟩ := exists_unique_digit
      (fun k : Fin 9 => getCell g (u / 3 * 3 + k.val / 3) (u % 3 * 3 + k.val % 3))
      (fun k => by
        have hb := k.isLt
        have hr9 : u / 3 * 3 + k.val / 3 < 9 := by omega
        have hc9 : u % 3 * 3 + k.val % 3 < 9 := by omega
        have h0 := hnzg _ hr9 _ hc9
        have h9 := hleg _ hr9 _ hc9
        refine ⟨?_, h9⟩
        show 1 ≤ getCell g (u / 3 * 3 + k.val / 3) (u % 3 * 3 + k.val % 3)
        omega)
      (fun k1 k2 he => by
        by_contra hne
        have hb1 := k1.isLt
        have hb2 := k2.isLt
        have hr1 : u / 3 * 3 + k1.val / 3 < 9 := by omega
        have hc1 : u % 3 * 3 + k1.val % 3 < 9 := by omega
        have hr2 : u / 3 * 3 + k2.val / 3 < 9 := by omega
        have hc2 : u % 3 * 3 + k2.val % 3 < 9 := by omega
        exact hncg _ hr1 _ hc1 _ hr2 _ hc2
          (fun hp => by
            have h1 := congrArg Prod.fst hp
            have h2 := congrArg Prod.snd hp
            dsimp only at h1 h2
            exact hne (Fin.val_injective (by omega)))
          (Or.inr (Or.inr ⟨by omega, by omega⟩))
          (hnzg _ hr1 _ hc1) he)
      d hd1 hd9
    exact card_filter_eq_one k.isLt hk
      (fun kk hkk hpkk => congrArg Fin.val (huniq ⟨kk, hkk⟩ hpkk))

set_option maxRecDepth 10000 in
/-- C1 witness: a run of the generator steered to the reference solution
indeed yields a grid whose units are exact, checked at row/column/box 0 and
digit 1. -/
theorem generateSolution_valid_witness :
    digitCountInRow sol0 0 1 = 1 ∧ digitCountInCol sol0 0 1 = 1 ∧
    digitCountInBox sol0 0 1 = 1 :=
  generateSolution_valid goodRand 82 sol0 (by decide) 0 (by decide) 1
    (by decide) (by decide)

end Sudoku
